import Mathlib

/-!
Verification development for `syntomid_convert.py`, a converter from SynToMid
MIDI files and FL Studio piano-roll JSON exports to a unified JSON note schema.

The embedding below mirrors the Python source:
* Python floats are modelled as `ℚ` (all arithmetic in the program is exact
  field arithmetic on decimal inputs), Python ints as `ℤ`/`ℕ`.
* A JSON mapping read from disk is modelled by a structure of `Option` fields:
  `some v` means the key is present with value `v`, `none` means absent.
  For stored note records we additionally track the names of unrecognized
  keys (`extra`), because `Note(**note_data)` rejects unexpected keywords.
* `list.sort(key=lambda n: n.start)` is a stable ascending sort; it is
  modelled by the stable insertion sort `sortNotes`.
-/

namespace Syntomid

/-- The `Note` dataclass: one musical note in the unified format. -/
structure Note where
  start : ℚ
  duration : ℚ
  pitch : ℤ
  velocity : ℚ
  channel : ℤ := 0
  channel_name : String := ""
deriving DecidableEq

/-- The value of the `metadata` mapping of a collection.  Each field is
`some v` when the corresponding key is present.  (The program only ever
stores these four keys in `metadata`.) -/
structure Metadata where
  title : Option String := none
  bpm : Option ℤ := none
  time_signature : Option String := none
  duration_seconds : Option ℚ := none
deriving DecidableEq

/-- Python truthiness of the metadata dict: `{}` is falsy. -/
def Metadata.isEmptyDict (m : Metadata) : Bool :=
  m.title.isNone && m.bpm.isNone && m.time_signature.isNone && m.duration_seconds.isNone

/-- Whether the serialized metadata mapping carries all four schema keys. -/
def Metadata.hasAllFour (m : Metadata) : Bool :=
  m.title.isSome && m.bpm.isSome && m.time_signature.isSome && m.duration_seconds.isSome

/-- The `NoteCollection` dataclass.  The default metadata is the one filled
in by `__post_init__` when no metadata is supplied. -/
structure NoteCollection where
  version : String := "1.0"
  source : String := "manual"
  metadata : Metadata :=
    { title := some "", bpm := some 120, time_signature := some "4/4",
      duration_seconds := some 0 }
  notes : List Note := []
deriving DecidableEq

/-- A stored note mapping, as found under `"notes"` in a saved file:
which of the six recognized keys are present (and their values), plus the
names of any unrecognized keys. -/
structure NoteRecord where
  start : Option ℚ := none
  duration : Option ℚ := none
  pitch : Option ℤ := none
  velocity : Option ℚ := none
  channel : Option ℤ := none
  channel_name : Option String := none
  extra : List String := []
deriving DecidableEq

/-- A stored collection mapping (the top-level JSON object of a saved file). -/
structure CollectionRecord where
  version : Option String := none
  source : Option String := none
  metadata : Option Metadata := none
  notes : Option (List NoteRecord) := none
deriving DecidableEq

/-- `Note.to_dict`: `asdict(self)` with the `channel_name` key deleted when
its value is the empty string. -/
def Note.to_dict (n : Note) : NoteRecord :=
  { start := some n.start, duration := some n.duration, pitch := some n.pitch,
    velocity := some n.velocity, channel := some n.channel,
    channel_name := if n.channel_name = "" then none else some n.channel_name,
    extra := [] }

/-- `NoteCollection.to_dict`: the mapping written by `save`. -/
def NoteCollection.to_dict (c : NoteCollection) : CollectionRecord :=
  { version := some c.version, source := some c.source, metadata := some c.metadata,
    notes := some (c.notes.map Note.to_dict) }

/-- Errors raised while rebuilding notes from stored records:
`Note(**note_data)` raises a `TypeError` either for an unexpected keyword
argument or for a missing required argument. -/
inductive LoadError
  | missingField (field : String)
  | unexpectedField (field : String)
deriving DecidableEq

/-- `Note(**note_data)`: rejects any unexpected key, requires
`start`, `duration`, `pitch`, `velocity`, and defaults `channel` to `0` and
`channel_name` to `""`.  (CPython reports an unexpected keyword before it
reports missing arguments.) -/
def loadNote (r : NoteRecord) : Except LoadError Note :=
  match r.extra with
  | k :: _ => .error (.unexpectedField k)
  | [] =>
    match r.start with
    | none => .error (.missingField "start")
    | some s =>
      match r.duration with
      | none => .error (.missingField "duration")
      | some d =>
        match r.pitch with
        | none => .error (.missingField "pitch")
        | some p =>
          match r.velocity with
          | none => .error (.missingField "velocity")
          | some v =>
            .ok { start := s, duration := d, pitch := p, velocity := v,
                  channel := r.channel.getD 0,
                  channel_name := r.channel_name.getD "" }

/-- The note-rebuilding loop of `NoteCollection.load`: the first failing
record aborts the whole load. -/
def loadNotes : List NoteRecord → Except LoadError (List Note)
  | [] => .ok []
  | r :: rs =>
    match loadNote r with
    | .error e => .error e
    | .ok n =>
      match loadNotes rs with
      | .error e => .error e
      | .ok ns => .ok (n :: ns)

/-- `NoteCollection.load` (after the JSON text has been parsed into a
mapping): `version`/`source` default to `"1.0"`/`"manual"`, `metadata`
defaults to the raw empty mapping `{}` (which `__post_init__` does not
refill, since it is not `None`), and the notes are rebuilt in order. -/
def NoteCollection.load (r : CollectionRecord) : Except LoadError NoteCollection :=
  match loadNotes (r.notes.getD []) with
  | .error e => .error e
  | .ok ns =>
    .ok { version := r.version.getD "1.0", source := r.source.getD "manual",
          metadata := r.metadata.getD {}, notes := ns }

/-- A MIDI track message as iterated by `for msg in track`: its delta time
in ticks plus the fields the converter inspects. -/
inductive MidiMsg
  | set_tempo (time : ℕ) (tempo : ℕ)
  | note_on (time : ℕ) (note : ℕ) (velocity : ℕ) (channel : ℕ)
  | note_off (time : ℕ) (note : ℕ) (velocity : ℕ) (channel : ℕ)
  | other (time : ℕ)
deriving DecidableEq

/-- The delta time (`msg.time`) of a message. -/
def MidiMsg.time : MidiMsg → ℕ
  | .set_tempo t _ => t
  | .note_on t _ _ _ => t
  | .note_off t _ _ _ => t
  | .other t => t

/-- A parsed MIDI file: `ticks_per_beat` and the track list. -/
structure MidiFile where
  ticks_per_beat : ℕ
  tracks : List (List MidiMsg)
deriving DecidableEq

/-- The per-track loop of `SynToMidConverter.from_midi_file`: walk the
messages with a running tick accumulator `t` and current `tempo`
(microseconds per beat); a `set_tempo` message updates `tempo`; a `note_on`
with positive velocity emits a note at
`(t + msg.time) * (tempo / 1000000) / ticks_per_beat` seconds with fixed
duration `0.25`; everything else only advances the clock. -/
def processTrack (tpb : ℕ) : List MidiMsg → ℚ → ℕ → List Note
  | [], _, _ => []
  | .set_tempo dt newTempo :: rest, t, _ =>
    processTrack tpb rest (t + (dt : ℚ)) newTempo
  | .note_on dt note vel ch :: rest, t, tempo =>
    if 0 < vel then
      { start := (t + (dt : ℚ)) * ((tempo : ℚ) / 1000000) / (tpb : ℚ),
        duration := 1/4, pitch := (note : ℤ), velocity := (vel : ℚ) / 127,
        channel := (ch : ℤ), channel_name := "" }
        :: processTrack tpb rest (t + (dt : ℚ)) tempo
    else
      processTrack tpb rest (t + (dt : ℚ)) tempo
  | .note_off dt _ _ _ :: rest, t, tempo =>
    processTrack tpb rest (t + (dt : ℚ)) tempo
  | .other dt :: rest, t, tempo =>
    processTrack tpb rest (t + (dt : ℚ)) tempo

/-- Stable insertion of a note into a list ascending by `start`: the new
note goes before the first element whose start is `≥` its own, i.e. after
every earlier element with an equal start. -/
def insertNote (n : Note) : List Note → List Note
  | [] => [n]
  | m :: ms => if n.start ≤ m.start then n :: m :: ms else m :: insertNote n ms

/-- Stable ascending sort by `start`, modelling
`collection.notes.sort(key=lambda n: n.start)` (a stable sort). -/
def sortNotes : List Note → List Note
  | [] => []
  | n :: ns => insertNote n (sortNotes ns)

/-- The note list accumulated across all tracks, in emission order
(tracks in file order, each processed from tick `0` and tempo `500000`). -/
def preNotes (mid : MidiFile) : List Note :=
  (mid.tracks.map fun tr => processTrack mid.ticks_per_beat tr 0 500000).flatten

/-- `SynToMidConverter.from_midi_file` (with the `mido` dependency
available): `metadata or {"title": midi_path.stem, "bpm": 120}` picks the
default when the argument is `None` or an empty dict, then all tracks are
processed independently and the accumulated notes are stable-sorted by
start time. -/
def SynToMidConverter.from_midi_file (mid : MidiFile) (stem : String)
    (metadata : Option Metadata) : NoteCollection :=
  let meta : Metadata :=
    match metadata with
    | none => { title := some stem, bpm := some 120 }
    | some m => if m.isEmptyDict then { title := some stem, bpm := some 120 } else m
  { version := "1.0", source := "syntomid", metadata := meta,
    notes := sortNotes (preNotes mid) }

/-- An FL Studio note entry: which keys are present with their values.
(Unrecognized keys are irrelevant here: the importer reads keys explicitly
and never splats the mapping.) -/
structure FLNoteRecord where
  start : Option ℚ := none
  duration : Option ℚ := none
  pitch : Option ℤ := none
  velocity : Option ℚ := none
  channel : Option ℤ := none
  channel_name : Option String := none
deriving DecidableEq

/-- The top-level FL Studio export mapping. -/
structure FLData where
  bpm : Option ℤ := none
  time_signature : Option String := none
  duration_seconds : Option ℚ := none
  notes : Option (List FLNoteRecord) := none
deriving DecidableEq

/-- One iteration of the FL note loop: `note_data["start"]` etc. raise a
`KeyError` for a missing required key (in evaluation order `start`,
`duration`, `pitch`, `velocity`); `channel` defaults to `0` and
`channel_name` to `""` via `.get`. -/
def flLoadNote (r : FLNoteRecord) : Except LoadError Note :=
  match r.start with
  | none => .error (.missingField "start")
  | some s =>
    match r.duration with
    | none => .error (.missingField "duration")
    | some d =>
      match r.pitch with
      | none => .error (.missingField "pitch")
      | some p =>
        match r.velocity with
        | none => .error (.missingField "velocity")
        | some v =>
          .ok { start := s, duration := d, pitch := p, velocity := v,
                channel := r.channel.getD 0,
                channel_name := r.channel_name.getD "" }

/-- The FL note loop; the first failing entry aborts the conversion. -/
def flLoadNotes : List FLNoteRecord → Except LoadError (List Note)
  | [] => .ok []
  | r :: rs =>
    match flLoadNote r with
    | .error e => .error e
    | .ok n =>
      match flLoadNotes rs with
      | .error e => .error e
      | .ok ns => .ok (n :: ns)

/-- `FLStudioConverter.from_json` (after JSON parsing): metadata comes from
the file's top-level keys with defaults `bpm=120`, `time_signature="4/4"`,
`duration_seconds=0.0`, the title from the input filename stem; notes are
appended in file order with no sorting. -/
def FLStudioConverter.from_json (stem : String) (d : FLData) :
    Except LoadError NoteCollection :=
  match flLoadNotes (d.notes.getD []) with
  | .error e => .error e
  | .ok ns =>
    .ok { version := "1.0", source := "fl_studio",
          metadata :=
            { title := some stem, bpm := some (d.bpm.getD 120),
              time_signature := some (d.time_signature.getD "4/4"),
              duration_seconds := some (d.duration_seconds.getD 0) },
          notes := ns }

/-- The metadata dict built by `main` for the MIDI branch:
`{"title": args.title or input_path.stem, "bpm": args.bpm}` — exactly two
keys (`args.title or stem` falls back to the stem when the title is absent
or the empty string). -/
def mainMidiMetadata (stem : String) (title : Option String) (bpm : ℤ) : Metadata :=
  { title := some (match title with
      | none => stem
      | some t => if t = "" then stem else t),
    bpm := some bpm }

/-- The MIDI conversion performed by `main` (source `"syntomid"`). -/
def mainRunMidi (mid : MidiFile) (stem : String) (title : Option String)
    (bpm : ℤ) : NoteCollection :=
  SynToMidConverter.from_midi_file mid stem (some (mainMidiMetadata stem title bpm))

/-- Total delta time, in ticks, accumulated through message `i` of a track
(the value of `current_time` when message `i` is handled). -/
def ticksThrough (tr : List MidiMsg) (i : ℕ) : ℕ :=
  ((tr.take (i + 1)).map MidiMsg.time).sum

/-- How one message updates the running tempo. -/
def tempoStep (tempo : ℕ) : MidiMsg → ℕ
  | .set_tempo _ newTempo => newTempo
  | _ => tempo

/-- Spec-side closed form of the per-track algorithm, written from the
spec's description: the track is walked with its own clock starting at `t0`
and tempo starting at `tempo0`; message `i` emits a note exactly when it is
a note-on with positive velocity, and that note starts at
`current_time * (tempo / 1000000) / ticks_per_beat` seconds, where
`current_time` is the delta-time total through message `i` and `tempo` is
the latest tempo set strictly before message `i`.  The C2 theorem proves
the importer's loop (`processTrack`) equal to this closed form. -/
def specTrackNotes (tpb : ℕ) (tr : List MidiMsg) (t0 : ℚ) (tempo0 : ℕ) : List Note :=
  (List.range tr.length).filterMap fun i =>
    match tr[i]? with
    | some (MidiMsg.note_on _ note vel ch) =>
      if 0 < vel then
        some { start := (t0 + (ticksThrough tr i : ℚ)) *
                 ((((tr.take i).foldl tempoStep tempo0 : ℕ) : ℚ) / 1000000) / (tpb : ℚ),
               duration := 1/4, pitch := (note : ℤ), velocity := (vel : ℚ) / 127,
               channel := (ch : ℤ), channel_name := "" }
      else none
    | _ => none


/-- The note list (empty or singleton) emitted by the head message of a
track, used to decompose `specTrackNotes`. -/
def specHeadNote (tpb : ℕ) (m : MidiMsg) (t0 : ℚ) (tempo0 : ℕ) : List Note :=
  match m with
  | .note_on dt note vel ch =>
    if 0 < vel then
      [{ start := (t0 + (dt : ℚ)) * ((tempo0 : ℚ) / 1000000) / (tpb : ℚ),
         duration := 1/4, pitch := (note : ℤ), velocity := (vel : ℚ) / 127,
         channel := (ch : ℤ), channel_name := "" }]
    else []
  | _ => []

/-- A message that emits a note: a note-on with positive velocity. -/
def isLiveNoteOn : MidiMsg → Bool
  | .note_on _ _ vel _ => decide (0 < vel)
  | _ => false

/-- Validity of a message's velocity byte (`mido` enforces `0 ≤ v ≤ 127`). -/
def velocityOk : MidiMsg → Bool
  | .note_on _ _ vel _ => decide (vel ≤ 127)
  | _ => true

/-- A stored note record lacks one of the four required fields. -/
def NoteRecord.missingRequired (r : NoteRecord) : Bool :=
  r.start.isNone || r.duration.isNone || r.pitch.isNone || r.velocity.isNone

/-- The note a well-formed stored record maps to: stored fields moved
directly onto `Note` fields, with the constructor defaults for the two
optional ones.  (The `getD` fallbacks for the four required fields are
irrelevant when the record is well-formed.) -/
def noteOfRecord (r : NoteRecord) : Note :=
  { start := r.start.getD 0, duration := r.duration.getD 0,
    pitch := r.pitch.getD 0, velocity := r.velocity.getD 0,
    channel := r.channel.getD 0, channel_name := r.channel_name.getD "" }

/-- An FL note entry carrying all four required keys. -/
def FLNoteRecord.wellFormed (r : FLNoteRecord) : Bool :=
  r.start.isSome && r.duration.isSome && r.pitch.isSome && r.velocity.isSome

/-- The note a well-formed FL entry converts to. -/
def flNoteOfRecord (r : FLNoteRecord) : Note :=
  { start := r.start.getD 0, duration := r.duration.getD 0,
    pitch := r.pitch.getD 0, velocity := r.velocity.getD 0,
    channel := r.channel.getD 0, channel_name := r.channel_name.getD "" }

/-- The spec's MIDI scenario: one track, a tempo event (tempo 500000) at
tick 0 and a note-on (note 60, velocity 100, channel 0) at tick 480, with
480 ticks per beat. -/
def exMid : MidiFile :=
  { ticks_per_beat := 480,
    tracks := [[MidiMsg.set_tempo 0 500000, MidiMsg.note_on 480 60 100 0]] }

/-- The note the scenario should produce. -/
def exNote : Note :=
  { start := 1/2, duration := 1/4, pitch := 60, velocity := 100/127, channel := 0 }

/-- A note with a non-empty channel name. -/
def exNamedNote : Note :=
  { start := 1, duration := 1/2, pitch := 64, velocity := 1/2, channel := 1,
    channel_name := "piano" }

/-- A collection holding one empty-channel-name note and one named note. -/
def exColl : NoteCollection := { notes := [exNote, exNamedNote] }

/-- The note entry of the spec's FL scenario:
`{"start": 0, "duration": 1, "pitch": 64, "velocity": 0.8}`. -/
def exFLRecord : FLNoteRecord :=
  { start := some 0, duration := some 1, pitch := some 64, velocity := some (4/5) }

/-- The spec's FL scenario input:
`{"bpm": 140, "notes": [{"start": 0, "duration": 1, "pitch": 64, "velocity": 0.8}]}`. -/
def exFL : FLData :=
  { bpm := some 140, notes := some [exFLRecord] }

/-- The note the FL scenario should produce. -/
def exFLNote : Note := { start := 0, duration := 1, pitch := 64, velocity := 4/5 }

/-- The collection the FL scenario should produce (for input stem `"input"`). -/
def exFLColl : NoteCollection :=
  { source := "fl_studio",
    metadata := { title := some "input", bpm := some 140,
                  time_signature := some "4/4", duration_seconds := some 0 },
    notes := [exFLNote] }

/-- An FL input with no `"notes"` key at all. -/
def exFLEmpty : FLData := {}

/-- A stored note record with no `velocity` key. -/
def exBadRecord : NoteRecord := { start := some 0, duration := some 1, pitch := some 60 }

/-- A stored collection whose only note record lacks `velocity`. -/
def exBadColl : CollectionRecord := { notes := some [exBadRecord] }

/-- A stored note record with all required keys plus an unrecognized key. -/
def exExtraRecord : NoteRecord :=
  { start := some 0, duration := some 1, pitch := some 60, velocity := some 1,
    extra := ["layer"] }

/-- A stored collection whose only note record has an unrecognized key. -/
def exExtraColl : CollectionRecord := { notes := some [exExtraRecord] }

/-! Stable-sort lemmas: `sortNotes` is a sorted, stable permutation. -/

theorem insertNote_perm (n : Note) (l : List Note) :
    List.Perm (insertNote n l) (n :: l) := by
  induction l with
  | nil => simp [insertNote]
  | cons m ms ih =>
    by_cases h : n.start ≤ m.start
    · simp [insertNote, h]
    · rw [insertNote, if_neg h]
      exact (ih.cons m).trans (List.Perm.swap n m ms)

theorem sortNotes_perm (l : List Note) : List.Perm (sortNotes l) l := by
  induction l with
  | nil => simp [sortNotes]
  | cons n ns ih => exact (insertNote_perm n (sortNotes ns)).trans (ih.cons n)

theorem mem_insertNote {a n : Note} {l : List Note} :
    a ∈ insertNote n l ↔ a = n ∨ a ∈ l := by
  rw [(insertNote_perm n l).mem_iff, List.mem_cons]

theorem sorted_insertNote {n : Note} {l : List Note}
    (h : List.Sorted (fun a b : Note => a.start ≤ b.start) l) :
    List.Sorted (fun a b : Note => a.start ≤ b.start) (insertNote n l) := by
  induction l with
  | nil => simp [insertNote]
  | cons m ms ih =>
    rw [List.sorted_cons] at h
    by_cases hnm : n.start ≤ m.start
    · rw [insertNote, if_pos hnm, List.sorted_cons]
      refine ⟨?_, List.sorted_cons.mpr h⟩
      intro b hb
      rcases List.mem_cons.mp hb with rfl | hb
      · exact hnm
      · exact hnm.trans (h.1 b hb)
    · rw [insertNote, if_neg hnm, List.sorted_cons]
      refine ⟨?_, ih h.2⟩
      intro b hb
      rcases mem_insertNote.mp hb with rfl | hb
      · exact (not_le.mp hnm).le
      · exact h.1 b hb

theorem sortNotes_sorted (l : List Note) :
    List.Sorted (fun a b : Note => a.start ≤ b.start) (sortNotes l) := by
  induction l with
  | nil => simp [sortNotes]
  | cons n ns ih => exact sorted_insertNote ih

theorem filter_insertNote (s : ℚ) (n : Note) (l : List Note) :
    (insertNote n l).filter (fun m => decide (m.start = s)) =
      if n.start = s then n :: l.filter (fun m => decide (m.start = s))
      else l.filter (fun m => decide (m.start = s)) := by
  induction l with
  | nil => by_cases h : n.start = s <;> simp [insertNote, h]
  | cons m ms ih =>
    by_cases hnm : n.start ≤ m.start
    · rw [insertNote, if_pos hnm]
      by_cases h : n.start = s <;> simp [List.filter_cons, h]
    · have hm : m.start < n.start := not_le.mp hnm
      rw [insertNote, if_neg hnm, List.filter_cons, ih]
      by_cases hn : n.start = s
      · have hms : ¬ m.start = s := by
          rw [← hn]; exact ne_of_lt hm
        simp [hn, hms, List.filter_cons]
      · by_cases hms : m.start = s <;> simp [hn, hms, List.filter_cons]

theorem filter_sortNotes (s : ℚ) (l : List Note) :
    (sortNotes l).filter (fun m => decide (m.start = s)) =
      l.filter (fun m => decide (m.start = s)) := by
  induction l with
  | nil => rfl
  | cons n ns ih =>
    rw [sortNotes, filter_insertNote, ih, List.filter_cons]
    by_cases h : n.start = s <;> simp [h]

/-! Per-track processing lemmas. -/

theorem ticksThrough_zero (m : MidiMsg) (rest : List MidiMsg) :
    ticksThrough (m :: rest) 0 = m.time := by
  simp [ticksThrough]

theorem ticksThrough_succ (m : MidiMsg) (rest : List MidiMsg) (i : ℕ) :
    ticksThrough (m :: rest) (i + 1) = m.time + ticksThrough rest i := by
  simp [ticksThrough, List.take_succ_cons]

theorem specTrackNotes_cons (tpb : ℕ) (m : MidiMsg) (rest : List MidiMsg)
    (t0 : ℚ) (tempo0 : ℕ) :
    specTrackNotes tpb (m :: rest) t0 tempo0 =
      specHeadNote tpb m t0 tempo0 ++
        specTrackNotes tpb rest (t0 + (m.time : ℚ)) (tempoStep tempo0 m) := by
  rw [specTrackNotes, specTrackNotes, List.length_cons, List.range_succ_eq_map,
    List.filterMap_cons, List.filterMap_map]
  have htail :
      ∀ G : ℕ → Option Note, ∀ F : ℕ → Option Note,
        (∀ i, F (Nat.succ i) = G i) →
        List.filterMap (F ∘ Nat.succ) (List.range rest.length) =
          List.filterMap G (List.range rest.length) := by
    intro G F h
    apply List.filterMap_congr
    intro i _
    exact h i
  cases m with
  | set_tempo dt nt =>
    simp only [List.getElem?_cons_zero, specHeadNote, List.nil_append]
    apply htail
    intro i
    simp only [Function.comp_apply, List.getElem?_cons_succ, ticksThrough_succ,
      List.take_succ_cons, List.foldl_cons, tempoStep, MidiMsg.time]
    cases hmi : rest[i]? with
    | none => rfl
    | some msg =>
      cases msg with
      | note_on dt2 note vel ch =>
        by_cases hv : 0 < vel
        · simp only [if_pos hv, Option.some.injEq, Note.mk.injEq, eq_self_iff_true,
            and_true, true_and]
          push_cast
          ring
        · simp only [if_neg hv]
      | set_tempo a b => rfl
      | note_off a b c d => rfl
      | other a => rfl
  | note_off dt note vel ch =>
    simp only [List.getElem?_cons_zero, specHeadNote, List.nil_append]
    apply htail
    intro i
    simp only [Function.comp_apply, List.getElem?_cons_succ, ticksThrough_succ,
      List.take_succ_cons, List.foldl_cons, tempoStep, MidiMsg.time]
    cases hmi : rest[i]? with
    | none => rfl
    | some msg =>
      cases msg with
      | note_on dt2 note2 vel2 ch2 =>
        by_cases hv : 0 < vel2
        · simp only [if_pos hv, Option.some.injEq, Note.mk.injEq, eq_self_iff_true,
            and_true, true_and]
          push_cast
          ring
        · simp only [if_neg hv]
      | set_tempo a b => rfl
      | note_off a b c d => rfl
      | other a => rfl
  | other dt =>
    simp only [List.getElem?_cons_zero, specHeadNote, List.nil_append]
    apply htail
    intro i
    simp only [Function.comp_apply, List.getElem?_cons_succ, ticksThrough_succ,
      List.take_succ_cons, List.foldl_cons, tempoStep, MidiMsg.time]
    cases hmi : rest[i]? with
    | none => rfl
    | some msg =>
      cases msg with
      | note_on dt2 note2 vel2 ch2 =>
        by_cases hv : 0 < vel2
        · simp only [if_pos hv, Option.some.injEq, Note.mk.injEq, eq_self_iff_true,
            and_true, true_and]
          push_cast
          ring
        · simp only [if_neg hv]
      | set_tempo a b => rfl
      | note_off a b c d => rfl
      | other a => rfl
  | note_on dt note vel ch =>
    by_cases hv : 0 < vel
    · simp only [List.getElem?_cons_zero, specHeadNote, if_pos hv, ticksThrough_zero,
        MidiMsg.time, List.take_zero, List.foldl_nil, List.singleton_append]
      congr 1
      apply htail
      intro i
      simp only [Function.comp_apply, List.getElem?_cons_succ, ticksThrough_succ,
        List.take_succ_cons, List.foldl_cons, tempoStep, MidiMsg.time]
      cases hmi : rest[i]? with
      | none => rfl
      | some msg =>
        cases msg with
        | note_on dt2 note2 vel2 ch2 =>
          by_cases hv2 : 0 < vel2
          · simp only [if_pos hv2, Option.some.injEq, Note.mk.injEq, eq_self_iff_true,
              and_true, true_and]
            push_cast
            ring
          · simp only [if_neg hv2]
        | set_tempo a b => rfl
        | note_off a b c d => rfl
        | other a => rfl
    · simp only [List.getElem?_cons_zero, specHeadNote, if_neg hv, List.nil_append]
      apply htail
      intro i
      simp only [Function.comp_apply, List.getElem?_cons_succ, ticksThrough_succ,
        List.take_succ_cons, List.foldl_cons, tempoStep, MidiMsg.time]
      cases hmi : rest[i]? with
      | none => rfl
      | some msg =>
        cases msg with
        | note_on dt2 note2 vel2 ch2 =>
          by_cases hv2 : 0 < vel2
          · simp only [if_pos hv2, Option.some.injEq, Note.mk.injEq, eq_self_iff_true,
              and_true, true_and]
            push_cast
            ring
          · simp only [if_neg hv2]
        | set_tempo a b => rfl
        | note_off a b c d => rfl
        | other a => rfl

theorem specTrackNotes_nil (tpb : ℕ) (t0 : ℚ) (tempo0 : ℕ) :
    specTrackNotes tpb [] t0 tempo0 = [] := by
  simp [specTrackNotes]

theorem processTrack_eq_spec (tpb : ℕ) (tr : List MidiMsg) (t0 : ℚ) (tempo0 : ℕ) :
    processTrack tpb tr t0 tempo0 = specTrackNotes tpb tr t0 tempo0 := by
  induction tr generalizing t0 tempo0 with
  | nil => simp [processTrack, specTrackNotes_nil]
  | cons m rest ih =>
    rw [specTrackNotes_cons]
    cases m with
    | set_tempo dt nt =>
      simp [processTrack, ih, specHeadNote, MidiMsg.time, tempoStep]
    | note_on dt note vel ch =>
      by_cases hv : 0 < vel <;>
        simp [processTrack, hv, ih, specHeadNote, MidiMsg.time, tempoStep]
    | note_off dt note vel ch =>
      simp [processTrack, ih, specHeadNote, MidiMsg.time, tempoStep]
    | other dt =>
      simp [processTrack, ih, specHeadNote, MidiMsg.time, tempoStep]

theorem mem_processTrack {tpb : ℕ} {tr : List MidiMsg} {t0 : ℚ} {tempo0 : ℕ} {n : Note}
    (h : n ∈ processTrack tpb tr t0 tempo0) :
    ∃ dt note vel ch, MidiMsg.note_on dt note vel ch ∈ tr ∧ 0 < vel ∧
      n.duration = 1/4 ∧ n.velocity = (vel : ℚ) / 127 ∧ n.pitch = (note : ℤ) ∧
      n.channel = (ch : ℤ) ∧ n.channel_name = "" := by
  induction tr generalizing t0 tempo0 with
  | nil => simp [processTrack] at h
  | cons m rest ih =>
    cases m with
    | set_tempo dt nt =>
      obtain ⟨dt2, note, vel, ch, hmem, hrest⟩ := ih h
      exact ⟨dt2, note, vel, ch, List.mem_cons_of_mem _ hmem, hrest⟩
    | note_on dt note vel ch =>
      by_cases hv : 0 < vel
      · rw [processTrack, if_pos hv] at h
        rcases List.mem_cons.mp h with rfl | h2
        · exact ⟨dt, note, vel, ch, List.mem_cons_self _ _, hv, rfl, rfl, rfl, rfl, rfl⟩
        · obtain ⟨dt2, note2, vel2, ch2, hmem, hrest⟩ :=
            ih h2
          exact ⟨dt2, note2, vel2, ch2, List.mem_cons_of_mem _ hmem, hrest⟩
      · rw [processTrack, if_neg hv] at h
        obtain ⟨dt2, note2, vel2, ch2, hmem, hrest⟩ :=
          ih h
        exact ⟨dt2, note2, vel2, ch2, List.mem_cons_of_mem _ hmem, hrest⟩
    | note_off dt note vel ch =>
      obtain ⟨dt2, note2, vel2, ch2, hmem, hrest⟩ :=
        ih h
      exact ⟨dt2, note2, vel2, ch2, List.mem_cons_of_mem _ hmem, hrest⟩
    | other dt =>
      obtain ⟨dt2, note2, vel2, ch2, hmem, hrest⟩ :=
        ih h
      exact ⟨dt2, note2, vel2, ch2, List.mem_cons_of_mem _ hmem, hrest⟩

theorem length_processTrack (tpb : ℕ) (tr : List MidiMsg) (t0 : ℚ) (tempo0 : ℕ) :
    (processTrack tpb tr t0 tempo0).length = tr.countP isLiveNoteOn := by
  induction tr generalizing t0 tempo0 with
  | nil => simp [processTrack]
  | cons m rest ih =>
    cases m with
    | set_tempo dt nt =>
      simp [processTrack, List.countP_cons, isLiveNoteOn, ih]
    | note_on dt note vel ch =>
      by_cases hv : 0 < vel <;>
        simp [processTrack, hv, List.countP_cons, isLiveNoteOn, ih]
    | note_off dt note vel ch =>
      simp [processTrack, List.countP_cons, isLiveNoteOn, ih]
    | other dt =>
      simp [processTrack, List.countP_cons, isLiveNoteOn, ih]

/-! Serialization and load lemmas. -/

theorem loadNote_unexpected {r : NoteRecord} {k : String} {ks : List String}
    (h : r.extra = k :: ks) : loadNote r = .error (.unexpectedField k) := by
  rw [loadNote, h]

theorem loadNote_ok {r : NoteRecord} (hx : r.extra = [])
    (hm : r.missingRequired = false) : loadNote r = .ok (noteOfRecord r) := by
  obtain ⟨os, od, op, ov, oc, ocn, ex⟩ := r
  simp only [NoteRecord.missingRequired] at hm
  subst hx
  cases os <;> cases od <;> cases op <;> cases ov <;>
    simp_all [loadNote, noteOfRecord]

theorem loadNote_missing {r : NoteRecord} (hx : r.extra = [])
    (hm : r.missingRequired = true) :
    ∃ f, loadNote r = .error (.missingField f) ∧
      (f = "start" ∨ f = "duration" ∨ f = "pitch" ∨ f = "velocity") := by
  obtain ⟨os, od, op, ov, oc, ocn, ex⟩ := r
  subst hx
  cases os with
  | none => exact ⟨"start", by simp [loadNote], by simp⟩
  | some s =>
    cases od with
    | none => exact ⟨"duration", by simp [loadNote], by simp⟩
    | some d =>
      cases op with
      | none => exact ⟨"pitch", by simp [loadNote], by simp⟩
      | some p =>
        cases ov with
        | none => exact ⟨"velocity", by simp [loadNote], by simp⟩
        | some v => simp [NoteRecord.missingRequired] at hm

theorem loadNotes_ok {rs : List NoteRecord}
    (h : ∀ rec ∈ rs, rec.extra = [] ∧ rec.missingRequired = false) :
    loadNotes rs = .ok (rs.map noteOfRecord) := by
  induction rs with
  | nil => rfl
  | cons r rs ih =>
    obtain ⟨hx, hm⟩ := h r (List.mem_cons_self r rs)
    rw [loadNotes, loadNote_ok hx hm,
      ih fun rec hrec => h rec (List.mem_cons_of_mem r hrec), List.map_cons]

theorem loadNotes_missing {rs : List NoteRecord}
    (hx : ∀ rec ∈ rs, rec.extra = [])
    (hm : ∃ rec ∈ rs, rec.missingRequired = true) :
    ∃ f, loadNotes rs = .error (.missingField f) ∧
      (f = "start" ∨ f = "duration" ∨ f = "pitch" ∨ f = "velocity") := by
  induction rs with
  | nil => simp at hm
  | cons r rs ih =>
    by_cases hr : r.missingRequired = true
    · obtain ⟨f, hf, hfor⟩ := loadNote_missing (hx r (List.mem_cons_self r rs)) hr
      exact ⟨f, by rw [loadNotes, hf], hfor⟩
    · have hr' : r.missingRequired = false := by simpa using hr
      have hok := loadNote_ok (hx r (List.mem_cons_self r rs)) hr'
      have hm' : ∃ rec ∈ rs, rec.missingRequired = true := by
        rcases hm with ⟨rec, hrec, hmr⟩
        rcases List.mem_cons.mp hrec with rfl | hrec
        · exact absurd hmr hr
        · exact ⟨rec, hrec, hmr⟩
      obtain ⟨f, hf, hfor⟩ := ih (fun rec h => hx rec (List.mem_cons_of_mem r h)) hm'
      exact ⟨f, by rw [loadNotes, hok, hf], hfor⟩

theorem loadNotes_unexpected {rs : List NoteRecord}
    (hok : ∀ rec ∈ rs, rec.extra = [] → rec.missingRequired = false)
    (hex : ∃ rec ∈ rs, rec.extra ≠ []) :
    ∃ k, loadNotes rs = .error (.unexpectedField k) := by
  induction rs with
  | nil => simp at hex
  | cons r rs ih =>
    cases hre : r.extra with
    | cons k ks => exact ⟨k, by rw [loadNotes, loadNote_unexpected hre]⟩
    | nil =>
      have hm := hok r (List.mem_cons_self r rs) hre
      have hok2 := loadNote_ok hre hm
      have hex' : ∃ rec ∈ rs, rec.extra ≠ [] := by
        rcases hex with ⟨rec, hrec, hne⟩
        rcases List.mem_cons.mp hrec with rfl | hrec
        · exact absurd hre hne
        · exact ⟨rec, hrec, hne⟩
      obtain ⟨k, hk⟩ := ih (fun rec h => hok rec (List.mem_cons_of_mem r h)) hex'
      exact ⟨k, by rw [loadNotes, hok2, hk]⟩

theorem loadNote_to_dict (n : Note) : loadNote n.to_dict = .ok n := by
  obtain ⟨s, d, p, v, c, cn⟩ := n
  by_cases h : cn = "" <;> simp [Note.to_dict, loadNote, h]

theorem load_to_dict (c : NoteCollection) : NoteCollection.load c.to_dict = .ok c := by
  obtain ⟨v, s, m, notes⟩ := c
  have hn : loadNotes (notes.map Note.to_dict) = .ok notes := by
    induction notes with
    | nil => rfl
    | cons n ns ih => rw [List.map_cons, loadNotes, loadNote_to_dict, ih]
  simp [NoteCollection.to_dict, NoteCollection.load, hn]

theorem flLoadNote_ok {r : FLNoteRecord} (hw : r.wellFormed = true) :
    flLoadNote r = .ok (flNoteOfRecord r) := by
  obtain ⟨os, od, op, ov, oc, ocn⟩ := r
  simp only [FLNoteRecord.wellFormed] at hw
  cases os <;> cases od <;> cases op <;> cases ov <;>
    simp_all [flLoadNote, flNoteOfRecord]

theorem flLoadNotes_ok {rs : List FLNoteRecord}
    (h : ∀ rec ∈ rs, rec.wellFormed = true) :
    flLoadNotes rs = .ok (rs.map flNoteOfRecord) := by
  induction rs with
  | nil => rfl
  | cons r rs ih =>
    rw [flLoadNotes, flLoadNote_ok (h r (List.mem_cons_self r rs)),
      ih fun rec hrec => h rec (List.mem_cons_of_mem r hrec), List.map_cons]

/-! Claim theorems and witnesses. -/

/-- C2: for every MIDI input the importer processes each track independently,
with its own tick accumulator starting at 0 and tempo starting at 500000;
tempo-set events update the tempo used for all later conversions in that
track, and each emitted note starts at
`current_time * (tempo / 1000000) / ticks_per_beat` seconds (the closed form
`specTrackNotes`).  In particular, the spec's scenario — a track with a
tempo=500000 event at tick 0 and a note-on (note 60, velocity 100,
channel 0) at tick 480 with 480 ticks per beat — yields exactly one note
with start 0.5, duration 0.25, pitch 60, velocity 100/127, channel 0. -/
theorem midi_track_time_conversion :
    (∀ (mid : MidiFile) (stem : String) (meta : Option Metadata),
        (SynToMidConverter.from_midi_file mid stem meta).notes =
          sortNotes ((mid.tracks.map fun tr =>
            specTrackNotes mid.ticks_per_beat tr 0 500000).flatten))
    ∧ (SynToMidConverter.from_midi_file exMid "song" none).notes = [exNote] := by
  constructor
  · intro mid stem meta
    simp [SynToMidConverter.from_midi_file, preNotes, processTrack_eq_spec]
  · simp [SynToMidConverter.from_midi_file, preNotes, exMid, processTrack, sortNotes,
      insertNote, exNote, Note.mk.injEq]
    norm_num

/-- C4: for every MIDI input, the returned notes list is sorted
non-decreasing by `start`, and the sort is stable: it is a permutation of
the emission-order list `preNotes`, and for every start value the notes
with that start appear in exactly their relative emission order. -/
theorem midi_notes_sorted_stable (mid : MidiFile) (stem : String) (meta : Option Metadata) :
    List.Sorted (fun a b : Note => a.start ≤ b.start)
        (SynToMidConverter.from_midi_file mid stem meta).notes
    ∧ List.Perm (SynToMidConverter.from_midi_file mid stem meta).notes (preNotes mid)
    ∧ ∀ s : ℚ,
        (SynToMidConverter.from_midi_file mid stem meta).notes.filter
            (fun n => decide (n.start = s)) =
          (preNotes mid).filter (fun n => decide (n.start = s)) := by
  have hnotes : (SynToMidConverter.from_midi_file mid stem meta).notes =
      sortNotes (preNotes mid) := rfl
  rw [hnotes]
  exact ⟨sortNotes_sorted _, sortNotes_perm _, fun s => filter_sortNotes s _⟩

/-- C7: every MIDI-derived note has velocity equal to the raw MIDI velocity
divided by 127 exactly, and (since raw velocities are in 0..127 and
zero-velocity note-ons are skipped) that value lies in (0, 1]; note-on
events with velocity 0 and explicit note-off events produce no note: the
number of output notes equals the number of positive-velocity note-ons. -/
theorem midi_velocity_normalized (mid : MidiFile) (stem : String) (meta : Option Metadata)
    (hvel : ∀ tr ∈ mid.tracks, ∀ m ∈ tr, velocityOk m = true) :
    (∀ n ∈ (SynToMidConverter.from_midi_file mid stem meta).notes,
        (∃ v : ℕ, 0 < v ∧ v ≤ 127 ∧ n.velocity = (v : ℚ) / 127) ∧
          0 < n.velocity ∧ n.velocity ≤ 1)
    ∧ (SynToMidConverter.from_midi_file mid stem meta).notes.length =
        (mid.tracks.map fun tr => tr.countP isLiveNoteOn).sum := by
  have hnotes : (SynToMidConverter.from_midi_file mid stem meta).notes =
      sortNotes (preNotes mid) := rfl
  constructor
  · intro n hn
    rw [hnotes, (sortNotes_perm _).mem_iff, preNotes, List.mem_flatten] at hn
    obtain ⟨l, hl, hnl⟩ := hn
    rw [List.mem_map] at hl
    obtain ⟨tr, htr, rfl⟩ := hl
    obtain ⟨dt, note, vel, ch, hmem, hv, hdur, hveq, hpitch, hch, hcn⟩ :=
      mem_processTrack hnl
    have h127 : vel ≤ 127 := by
      have hok := hvel tr htr _ hmem
      simpa [velocityOk] using hok
    refine ⟨⟨vel, hv, h127, hveq⟩, ?_, ?_⟩
    · rw [hveq]
      exact div_pos (by exact_mod_cast hv) (by norm_num)
    · rw [hveq, div_le_one (by norm_num : (0:ℚ) < 127)]
      exact_mod_cast h127
  · rw [hnotes, (sortNotes_perm _).length_eq, preNotes, List.length_flatten,
      List.map_map]
    congr 1
    apply List.map_congr_left
    intro tr _
    exact length_processTrack mid.ticks_per_beat tr 0 500000

/-- C8: every note produced by the MIDI importer, for every MIDI input, has
duration exactly 0.25 seconds. -/
theorem midi_duration_quarter (mid : MidiFile) (stem : String) (meta : Option Metadata) :
    ∀ n ∈ (SynToMidConverter.from_midi_file mid stem meta).notes, n.duration = 1/4 := by
  intro n hn
  have hnotes : (SynToMidConverter.from_midi_file mid stem meta).notes =
      sortNotes (preNotes mid) := rfl
  rw [hnotes, (sortNotes_perm _).mem_iff, preNotes, List.mem_flatten] at hn
  obtain ⟨l, hl, hnl⟩ := hn
  rw [List.mem_map] at hl
  obtain ⟨tr, htr, rfl⟩ := hl
  obtain ⟨dt, note, vel, ch, hmem, hv, hdur, hrest⟩ := mem_processTrack hnl
  exact hdur

/-- C3: for every valid FL Studio JSON input (a present `notes` array whose
entries all carry the four required keys), the importer succeeds and its
output notes are exactly the input entries converted in order — same
length, same order, no sorting. -/
theorem fl_json_preserves_notes (stem : String) (d : FLData) (l : List FLNoteRecord)
    (hn : d.notes = some l) (hw : ∀ rec ∈ l, rec.wellFormed = true) :
    ∃ c, FLStudioConverter.from_json stem d = .ok c ∧
      c.notes = l.map flNoteOfRecord ∧ c.notes.length = l.length := by
  have hload : flLoadNotes (d.notes.getD []) = .ok (l.map flNoteOfRecord) := by
    rw [hn]
    exact flLoadNotes_ok hw
  refine ⟨{ version := "1.0", source := "fl_studio",
            metadata := { title := some stem, bpm := some (d.bpm.getD 120),
                          time_signature := some (d.time_signature.getD "4/4"),
                          duration_seconds := some (d.duration_seconds.getD 0) },
            notes := l.map flNoteOfRecord }, ?_, rfl, by simp⟩
  simp only [FLStudioConverter.from_json, hload]

/-- C9: for every FL Studio JSON input whose top-level mapping lacks the
`notes` key, `from_json` succeeds (no missing-key error) and returns a
collection with an empty notes list. -/
theorem fl_json_missing_notes_key (stem : String) (d : FLData) (h : d.notes = none) :
    FLStudioConverter.from_json stem d =
      .ok { version := "1.0", source := "fl_studio",
            metadata := { title := some stem, bpm := some (d.bpm.getD 120),
                          time_signature := some (d.time_signature.getD "4/4"),
                          duration_seconds := some (d.duration_seconds.getD 0) },
            notes := [] } := by
  simp only [FLStudioConverter.from_json, h, Option.getD_none]
  rfl

/-- C5: serializing a `NoteCollection` and loading it back reproduces the
collection (hence its notes) exactly; when a note's `channel_name` is the
empty string its serialized record omits the `channel_name` key, and the
note still loads back with `channel_name = ""` (round-trips to the
default value, not to an identical representation). -/
theorem serialize_load_roundtrip (c : NoteCollection) (n : Note) :
    NoteCollection.load c.to_dict = .ok c
    ∧ (n.channel_name = "" →
        n.to_dict.channel_name = none ∧ loadNote n.to_dict = .ok n) := by
  refine ⟨load_to_dict c, fun h => ⟨?_, loadNote_to_dict n⟩⟩
  simp [Note.to_dict, h]

/-- C6: `NoteCollection.load` (on records with no unexpected keys, the case
C10 covers separately) fails with a missing-field error naming one of
`start`, `duration`, `pitch`, `velocity` whenever any stored note record
lacks one of those four, while `version` and `source` take the defaults
`"1.0"` and `"manual"` when absent; otherwise it succeeds and maps the
stored note fields directly onto the `Note` fields. -/
theorem load_missing_field_behavior (r : CollectionRecord)
    (hx : ∀ rec ∈ r.notes.getD [], rec.extra = []) :
    ((∃ rec ∈ r.notes.getD [], rec.missingRequired = true) →
        ∃ f, NoteCollection.load r = .error (.missingField f) ∧
          (f = "start" ∨ f = "duration" ∨ f = "pitch" ∨ f = "velocity"))
    ∧ ((∀ rec ∈ r.notes.getD [], rec.missingRequired = false) →
        NoteCollection.load r = .ok
          { version := r.version.getD "1.0", source := r.source.getD "manual",
            metadata := r.metadata.getD {},
            notes := (r.notes.getD []).map noteOfRecord }) := by
  constructor
  · intro hm
    obtain ⟨f, hf, hfor⟩ := loadNotes_missing hx hm
    exact ⟨f, by simp only [NoteCollection.load, hf], hfor⟩
  · intro hall
    have hok := loadNotes_ok fun rec hrec => ⟨hx rec hrec, hall rec hrec⟩
    simp only [NoteCollection.load, hok]

/-- C10: a stored note record containing a key other than the six
recognized ones makes `Note(**note_data)` fail with an unexpected-field
error naming that key, and `NoteCollection.load` therefore fails with an
unexpected-field error (stated for inputs whose records are otherwise
loadable, so the unexpected key is what trips the failure). -/
theorem load_unexpected_field_error :
    (∀ (rec : NoteRecord) (k : String) (ks : List String),
        rec.extra = k :: ks → loadNote rec = .error (.unexpectedField k))
    ∧ ∀ (r : CollectionRecord),
        (∀ rec ∈ r.notes.getD [], rec.extra = [] → rec.missingRequired = false) →
        (∃ rec ∈ r.notes.getD [], rec.extra ≠ []) →
        ∃ k, NoteCollection.load r = .error (.unexpectedField k) := by
  refine ⟨fun rec k ks h => loadNote_unexpected h, fun r hok hex => ?_⟩
  obtain ⟨k, hk⟩ := loadNotes_unexpected hok hex
  exact ⟨k, by simp only [NoteCollection.load, hk]⟩

/-- C1 counterexample: the conversion run `main` performs for a MIDI input
(here the scenario file, default title, bpm 120) serializes a metadata
mapping that does NOT contain all four schema keys: `time_signature` is
absent. -/
theorem metadata_four_keys_counterexample :
    (mainRunMidi exMid "song" none 120).to_dict.metadata =
        some (mainRunMidi exMid "song" none 120).metadata
    ∧ Metadata.hasAllFour (mainRunMidi exMid "song" none 120).metadata = false
    ∧ (mainRunMidi exMid "song" none 120).metadata.time_signature = none :=
  ⟨rfl, by decide, by decide⟩

/-- C1 amended: only the FL Studio importer's collections carry all four
metadata keys; the MIDI conversion run fixes its metadata at call time from
the caller-supplied title and bpm alone, so its metadata has `title` and
`bpm` but neither `time_signature` nor `duration_seconds`. -/
theorem metadata_keys_by_importer :
    (∀ (stem : String) (d : FLData) (c : NoteCollection),
        FLStudioConverter.from_json stem d = .ok c →
          Metadata.hasAllFour c.metadata = true)
    ∧ (∀ (mid : MidiFile) (stem : String) (title : Option String) (bpm : ℤ),
        (mainRunMidi mid stem title bpm).metadata.title.isSome = true
        ∧ (mainRunMidi mid stem title bpm).metadata.bpm.isSome = true
        ∧ (mainRunMidi mid stem title bpm).metadata.time_signature = none
        ∧ (mainRunMidi mid stem title bpm).metadata.duration_seconds = none) := by
  constructor
  · intro stem d c h
    cases he : flLoadNotes (d.notes.getD []) with
    | error e => simp [FLStudioConverter.from_json, he] at h
    | ok ns =>
      simp only [FLStudioConverter.from_json, he] at h
      cases h
      simp [Metadata.hasAllFour]
  · intro mid stem title bpm
    have hmeta : (mainRunMidi mid stem title bpm).metadata =
        mainMidiMetadata stem title bpm := by
      rw [mainRunMidi, SynToMidConverter.from_midi_file]
      simp [mainMidiMetadata, Metadata.isEmptyDict]
    rw [hmeta]
    simp [mainMidiMetadata]

/-- Witness for C1. -/
theorem metadata_keys_by_importer_witness :
    FLStudioConverter.from_json "input" exFL = .ok exFLColl
    ∧ Metadata.hasAllFour exFLColl.metadata = true := by
  have h : FLStudioConverter.from_json "input" exFL = .ok exFLColl := rfl
  exact ⟨h, metadata_keys_by_importer.1 "input" exFL exFLColl h⟩

/-- Witness for C3. -/
theorem fl_json_preserves_notes_witness :
    ∃ c, FLStudioConverter.from_json "input" exFL = .ok c ∧
      c.notes = [exFLRecord].map flNoteOfRecord ∧ c.notes.length = 1 := by
  obtain ⟨c, h1, h2, h3⟩ :=
    fl_json_preserves_notes "input" exFL [exFLRecord] rfl (by decide)
  exact ⟨c, h1, h2, by rw [h3]; rfl⟩

/-- Witness for C5. -/
theorem serialize_load_roundtrip_witness :
    NoteCollection.load exColl.to_dict = .ok exColl
    ∧ exNote.to_dict.channel_name = none
    ∧ loadNote exNote.to_dict = .ok exNote := by
  obtain ⟨h1, h2⟩ := serialize_load_roundtrip exColl exNote
  exact ⟨h1, (h2 rfl).1, (h2 rfl).2⟩

/-- Witness for C6. -/
theorem load_missing_field_behavior_witness :
    ∃ f, NoteCollection.load exBadColl = .error (.missingField f) ∧
      (f = "start" ∨ f = "duration" ∨ f = "pitch" ∨ f = "velocity") :=
  (load_missing_field_behavior exBadColl (by decide)).1
    ⟨exBadRecord, by decide, by decide⟩

/-- Witness for C7. -/
theorem midi_velocity_normalized_witness :
    exNote ∈ (SynToMidConverter.from_midi_file exMid "song" none).notes
    ∧ 0 < exNote.velocity ∧ exNote.velocity ≤ 1 := by
  have hmem : exNote ∈ (SynToMidConverter.from_midi_file exMid "song" none).notes := by
    simp [SynToMidConverter.from_midi_file, preNotes, exMid, processTrack, sortNotes,
      insertNote, exNote, Note.mk.injEq]
    norm_num
  have h := (midi_velocity_normalized exMid "song" none (by decide)).1 exNote hmem
  exact ⟨hmem, h.2⟩

/-- Witness for C8. -/
theorem midi_duration_quarter_witness :
    exNote ∈ (SynToMidConverter.from_midi_file exMid "song" none).notes
    ∧ exNote.duration = 1/4 := by
  have hmem : exNote ∈ (SynToMidConverter.from_midi_file exMid "song" none).notes := by
    simp [SynToMidConverter.from_midi_file, preNotes, exMid, processTrack, sortNotes,
      insertNote, exNote, Note.mk.injEq]
    norm_num
  exact ⟨hmem, midi_duration_quarter exMid "song" none exNote hmem⟩

/-- Witness for C9. -/
theorem fl_json_missing_notes_key_witness :
    FLStudioConverter.from_json "empty" exFLEmpty =
      .ok { version := "1.0", source := "fl_studio",
            metadata := { title := some "empty", bpm := some 120,
                          time_signature := some "4/4", duration_seconds := some 0 },
            notes := [] } :=
  fl_json_missing_notes_key "empty" exFLEmpty rfl

/-- Witness for C10. -/
theorem load_unexpected_field_error_witness :
    ∃ k, NoteCollection.load exExtraColl = .error (.unexpectedField k) :=
  load_unexpected_field_error.2 exExtraColl (by decide)
    ⟨exExtraRecord, by decide, by decide⟩

end Syntomid
